import Mathlib

/-!
Verification of the gastown worker-lifecycle and data-plane control layer.

This file shallowly embeds the pure cores of the Go sources:
  internal/doltserver/doltserver.go   (branch validation, metadata reconciler,
                                       migration discovery, connection capacity)
  internal/doctor/migration_check.go  (bd version gating)
  internal/cmd/patrol_step_drift.go   (step-drift detection)
  internal/config/cost_tier.go        (cost-tier policy)
and proves the spec's testable properties about them.

Go maps (`map[string]T`) are modelled as association lists with
replace-on-insert semantics; filesystem and subprocess effects are modelled
by explicit parameters (a path-existence predicate, an SQL-call trace).
-/

/-- A JSON value as stored in a rig's `metadata.json`.  The reconciler only
ever writes string values; any other JSON value read from an existing record
is carried opaquely as `jraw` of its canonical serialization. -/
inductive JsonValue where
  | jstr : String → JsonValue
  | jraw : String → JsonValue
deriving DecidableEq, Repr

/-- Lookup in an association-list model of a Go `map[string]β`. -/
def aget {β : Type} : List (String × β) → String → Option β
  | [], _ => none
  | p :: t, k => if p.1 = k then some p.2 else aget t k

/-- Insert/replace in an association-list model of a Go `map[string]β`:
removes every binding of `k` and appends the new one. -/
def aset {β : Type} : List (String × β) → String → β → List (String × β)
  | [], k, v => [(k, v)]
  | p :: t, k, v => if p.1 = k then aset t k v else p :: aset t k v

/-- Delete in an association-list model of a Go `map[string]β`. -/
def adel {β : Type} : List (String × β) → String → List (String × β)
  | [], _ => []
  | p :: t, k => if p.1 = k then adel t k else p :: adel t k

theorem aget_aset_self {β : Type} (m : List (String × β)) (k : String) (v : β) :
    aget (aset m k v) k = some v := by
  induction m with
  | nil => simp [aset, aget]
  | cons p t ih =>
    by_cases h : p.1 = k
    · simpa [aset, h] using ih
    · simp [aset, h, aget, ih]

theorem aget_aset_ne {β : Type} (m : List (String × β)) (k k₂ : String) (v : β)
    (h : k₂ ≠ k) : aget (aset m k v) k₂ = aget m k₂ := by
  induction m with
  | nil => simp [aset, aget, Ne.symm h]
  | cons p t ih =>
    by_cases hp : p.1 = k
    · rw [aset, if_pos hp, ih, aget, if_neg (fun hc => h ((Eq.symm hc).trans hp))]
    · by_cases hp₂ : p.1 = k₂
      · rw [aset, if_neg hp, aget, if_pos hp₂, aget, if_pos hp₂]
      · rw [aset, if_neg hp, aget, if_neg hp₂, ih, aget, if_neg hp₂]

theorem aget_eq_none_iff {β : Type} (m : List (String × β)) (k : String) :
    aget m k = none ↔ k ∉ m.map Prod.fst := by
  induction m with
  | nil => simp [aget]
  | cons p t ih =>
    by_cases h : p.1 = k
    · simp [aget, h]
    · rw [aget, if_neg h, ih, List.map_cons]
      constructor
      · intro hn hc
        rcases List.mem_cons.mp hc with hc | hc
        · exact h hc.symm
        · exact hn hc
      · intro hn hc
        exact hn (List.mem_cons_of_mem _ hc)

/-- Rebuild an association list from a map and a key list, keeping only the
keys the map binds; models writing out a JSON object key by key. -/
def assemble {β : Type} (m : List (String × β)) : List String → List (String × β)
  | [] => []
  | k :: ks =>
    match aget m k with
    | some v => (k, v) :: assemble m ks
    | none => assemble m ks

/-- The canonical serialized form of a JSON object: each bound key once, in
sorted key order, with its value.  Models Go's `json.MarshalIndent` of a
`map[string]interface` (Go serializes map keys in sorted order), so two
metadata maps produce byte-equal files iff their canonical forms are equal. -/
def canonicalize {β : Type} (m : List (String × β)) : List (String × β) :=
  assemble m (List.insertionSort (· ≤ ·) (m.map Prod.fst).dedup)

theorem aget_assemble {β : Type} (m : List (String × β)) (l : List String) (k : String) :
    aget (assemble m l) k = if k ∈ l then aget m k else none := by
  induction l with
  | nil => simp [assemble, aget]
  | cons k₀ ks ih =>
    by_cases hk : k₀ = k
    · subst hk
      cases hv : aget m k₀ with
      | none => simp [assemble, hv, ih]
      | some v => simp [assemble, hv, aget]
    · have hk₂ : ¬k = k₀ := fun hc => hk hc.symm
      cases hv : aget m k₀ with
      | none =>
        simp only [assemble, hv, ih, List.mem_cons]
        by_cases hmem : k ∈ ks <;> simp [hmem, hk₂]
      | some v =>
        simp only [assemble, hv, aget, if_neg hk, ih, List.mem_cons]
        by_cases hmem : k ∈ ks <;> simp [hmem, hk₂]

theorem aget_canonicalize {β : Type} (m : List (String × β)) (k : String) :
    aget (canonicalize m) k = aget m k := by
  rw [canonicalize, aget_assemble]
  have hmem : k ∈ List.insertionSort (· ≤ ·) (m.map Prod.fst).dedup ↔
      k ∈ m.map Prod.fst := by
    rw [(List.perm_insertionSort _ _).mem_iff, List.mem_dedup]
  by_cases h : k ∈ m.map Prod.fst
  · rw [if_pos (hmem.mpr h)]
  · rw [if_neg (fun hc => h (hmem.mp hc)), Eq.comm, aget_eq_none_iff]
    exact h

theorem canonicalize_ext {β : Type} (m₁ m₂ : List (String × β))
    (h : ∀ k, aget m₁ k = aget m₂ k) : canonicalize m₁ = canonicalize m₂ := by
  have hperm : List.Perm (List.insertionSort (· ≤ ·) (m₁.map Prod.fst).dedup)
      (List.insertionSort (· ≤ ·) (m₂.map Prod.fst).dedup) := by
    refine (List.perm_insertionSort _ _).trans
      (List.Perm.trans ?_ (List.perm_insertionSort _ _).symm)
    rw [List.perm_ext_iff_of_nodup (List.nodup_dedup _) (List.nodup_dedup _)]
    intro k
    rw [List.mem_dedup, List.mem_dedup, ← not_iff_not,
      ← aget_eq_none_iff, ← aget_eq_none_iff, h k]
  have hkeys : List.insertionSort (· ≤ ·) (m₁.map Prod.fst).dedup =
      List.insertionSort (· ≤ ·) (m₂.map Prod.fst).dedup :=
    List.eq_of_perm_of_sorted hperm
      (List.sorted_insertionSort _ _) (List.sorted_insertionSort _ _)
  rw [canonicalize, canonicalize, hkeys]
  generalize List.insertionSort (· ≤ ·) (m₂.map Prod.fst).dedup = l
  induction l with
  | nil => rfl
  | cons k ks ih => rw [assemble, assemble, h k, ih]

/-- The rig store-metadata record: the Go `map[string]interface` parsed from
`metadata.json`, as an association list. -/
def Meta : Type := List (String × JsonValue)

/-- The read-modify step of `doltserver.EnsureMetadata` (doltserver.go):
starting from the existing record (empty when the file is missing or
unparseable), set `database`, `backend`, `dolt_mode`, `dolt_database`
and default `jsonl_export` only when absent. -/
def ensureMetadataMap (rigName : String) (existing : Meta) : Meta :=
  let m₁ := aset existing "database" (JsonValue.jstr "dolt")
  let m₂ := aset m₁ "backend" (JsonValue.jstr "dolt")
  let m₃ := aset m₂ "dolt_mode" (JsonValue.jstr "server")
  let m₄ := aset m₃ "dolt_database" (JsonValue.jstr rigName)
  if (aget m₄ "jsonl_export").isSome then m₄
  else aset m₄ "jsonl_export" (JsonValue.jstr "issues.jsonl")

/-- What `EnsureMetadata` reads back from disk: `none` when no file exists,
`some none` when the file's text is not valid JSON (Go's `json.Unmarshal`
checks syntax first and leaves the target map untouched on failure; the code
ignores the error), `some (some m)` for a parsed object `m`. -/
def existingMetaOf : Option (Option Meta) → Meta
  | some (some m) => m
  | _ => []

/-- The full record `EnsureMetadata` computes from the prior file state. -/
def ensureMetadataRecord (rigName : String) (fileState : Option (Option Meta)) : Meta :=
  ensureMetadataMap rigName (existingMetaOf fileState)

/-- The bytes `EnsureMetadata` writes, as the canonical sorted key/value
sequence produced by Go's `json.MarshalIndent` on the updated map. -/
def ensureMetadataFile (rigName : String) (existing : Meta) : Meta :=
  canonicalize (ensureMetadataMap rigName existing)

theorem aget_ensureMetadataMap_database (rigName : String) (m : Meta) :
    aget (ensureMetadataMap rigName m) "database" = some (JsonValue.jstr "dolt") := by
  unfold ensureMetadataMap
  set m₄ := aset (aset (aset (aset m "database" (JsonValue.jstr "dolt"))
    "backend" (JsonValue.jstr "dolt")) "dolt_mode" (JsonValue.jstr "server"))
    "dolt_database" (JsonValue.jstr rigName) with hm₄
  have hbase : aget m₄ "database" = some (JsonValue.jstr "dolt") := by
    rw [hm₄, aget_aset_ne _ _ _ _ (by decide), aget_aset_ne _ _ _ _ (by decide),
      aget_aset_ne _ _ _ _ (by decide), aget_aset_self]
  by_cases hj : (aget m₄ "jsonl_export").isSome
  · simpa [hj] using hbase
  · simpa [hj, aget_aset_ne _ _ _ _ (show "database" ≠ "jsonl_export" by decide)] using hbase

theorem aget_ensureMetadataMap_backend (rigName : String) (m : Meta) :
    aget (ensureMetadataMap rigName m) "backend" = some (JsonValue.jstr "dolt") := by
  unfold ensureMetadataMap
  set m₄ := aset (aset (aset (aset m "database" (JsonValue.jstr "dolt"))
    "backend" (JsonValue.jstr "dolt")) "dolt_mode" (JsonValue.jstr "server"))
    "dolt_database" (JsonValue.jstr rigName) with hm₄
  have hbase : aget m₄ "backend" = some (JsonValue.jstr "dolt") := by
    rw [hm₄, aget_aset_ne _ _ _ _ (by decide), aget_aset_ne _ _ _ _ (by decide),
      aget_aset_self]
  by_cases hj : (aget m₄ "jsonl_export").isSome
  · simpa [hj] using hbase
  · simpa [hj, aget_aset_ne _ _ _ _ (show "backend" ≠ "jsonl_export" by decide)] using hbase

theorem aget_ensureMetadataMap_doltMode (rigName : String) (m : Meta) :
    aget (ensureMetadataMap rigName m) "dolt_mode" = some (JsonValue.jstr "server") := by
  unfold ensureMetadataMap
  set m₄ := aset (aset (aset (aset m "database" (JsonValue.jstr "dolt"))
    "backend" (JsonValue.jstr "dolt")) "dolt_mode" (JsonValue.jstr "server"))
    "dolt_database" (JsonValue.jstr rigName) with hm₄
  have hbase : aget m₄ "dolt_mode" = some (JsonValue.jstr "server") := by
    rw [hm₄, aget_aset_ne _ _ _ _ (by decide), aget_aset_self]
  by_cases hj : (aget m₄ "jsonl_export").isSome
  · simpa [hj] using hbase
  · simpa [hj, aget_aset_ne _ _ _ _ (show "dolt_mode" ≠ "jsonl_export" by decide)] using hbase

theorem aget_ensureMetadataMap_doltDatabase (rigName : String) (m : Meta) :
    aget (ensureMetadataMap rigName m) "dolt_database" = some (JsonValue.jstr rigName) := by
  unfold ensureMetadataMap
  set m₄ := aset (aset (aset (aset m "database" (JsonValue.jstr "dolt"))
    "backend" (JsonValue.jstr "dolt")) "dolt_mode" (JsonValue.jstr "server"))
    "dolt_database" (JsonValue.jstr rigName) with hm₄
  have hbase : aget m₄ "dolt_database" = some (JsonValue.jstr rigName) := by
    rw [hm₄, aget_aset_self]
  by_cases hj : (aget m₄ "jsonl_export").isSome
  · simpa [hj] using hbase
  · simpa [hj, aget_aset_ne _ _ _ _ (show "dolt_database" ≠ "jsonl_export" by decide)] using hbase

theorem aget_ensureMetadataMap_jsonl (rigName : String) (m : Meta) :
    aget (ensureMetadataMap rigName m) "jsonl_export" =
      some ((aget m "jsonl_export").getD (JsonValue.jstr "issues.jsonl")) := by
  unfold ensureMetadataMap
  set m₄ := aset (aset (aset (aset m "database" (JsonValue.jstr "dolt"))
    "backend" (JsonValue.jstr "dolt")) "dolt_mode" (JsonValue.jstr "server"))
    "dolt_database" (JsonValue.jstr rigName) with hm₄
  have hbase : aget m₄ "jsonl_export" = aget m "jsonl_export" := by
    rw [hm₄, aget_aset_ne _ _ _ _ (by decide), aget_aset_ne _ _ _ _ (by decide),
      aget_aset_ne _ _ _ _ (by decide), aget_aset_ne _ _ _ _ (by decide)]
  cases hv : aget m "jsonl_export" with
  | none => simp [hbase, hv, aget_aset_self]
  | some v => simp [hbase, hv]

theorem aget_ensureMetadataMap_other (rigName : String) (m : Meta) (k : String)
    (hdb : k ≠ "database") (hbk : k ≠ "backend") (hdm : k ≠ "dolt_mode")
    (hdd : k ≠ "dolt_database") (hje : k ≠ "jsonl_export") :
    aget (ensureMetadataMap rigName m) k = aget m k := by
  unfold ensureMetadataMap
  set m₄ := aset (aset (aset (aset m "database" (JsonValue.jstr "dolt"))
    "backend" (JsonValue.jstr "dolt")) "dolt_mode" (JsonValue.jstr "server"))
    "dolt_database" (JsonValue.jstr rigName) with hm₄
  have hbase : aget m₄ k = aget m k := by
    rw [hm₄, aget_aset_ne _ _ _ _ hdd, aget_aset_ne _ _ _ _ hdm,
      aget_aset_ne _ _ _ _ hbk, aget_aset_ne _ _ _ _ hdb]
  by_cases hj : (aget m₄ "jsonl_export").isSome
  · simpa [hj] using hbase
  · simpa [hj, aget_aset_ne _ _ _ _ hje] using hbase

/-- C2: a successful `EnsureMetadata` preserves every key of the old record
other than `database`, `backend`, `dolt_mode`, `dolt_database` with its old
value; sets those four keys to `dolt`, `dolt`, `server`, `rigName`; and
inserts `jsonl_export=issues.jsonl` only when the old record had no
`jsonl_export` key (an existing `jsonl_export` value is kept). -/
theorem ensureMetadata_preserves_and_upserts (rigName : String) (m : Meta) :
    (∀ k, k ≠ "database" → k ≠ "backend" → k ≠ "dolt_mode" → k ≠ "dolt_database" →
      k ∈ m.map Prod.fst → aget (ensureMetadataMap rigName m) k = aget m k) ∧
    aget (ensureMetadataMap rigName m) "backend" = some (JsonValue.jstr "dolt") ∧
    aget (ensureMetadataMap rigName m) "dolt_mode" = some (JsonValue.jstr "server") ∧
    aget (ensureMetadataMap rigName m) "database" = some (JsonValue.jstr "dolt") ∧
    aget (ensureMetadataMap rigName m) "dolt_database" = some (JsonValue.jstr rigName) ∧
    (aget m "jsonl_export" = none →
      aget (ensureMetadataMap rigName m) "jsonl_export" = some (JsonValue.jstr "issues.jsonl")) ∧
    (∀ v, aget m "jsonl_export" = some v →
      aget (ensureMetadataMap rigName m) "jsonl_export" = some v) := by
  refine ⟨?_, aget_ensureMetadataMap_backend _ _, aget_ensureMetadataMap_doltMode _ _,
    aget_ensureMetadataMap_database _ _, aget_ensureMetadataMap_doltDatabase _ _, ?_, ?_⟩
  · intro k hdb hbk hdm hdd hmem
    by_cases hje : k = "jsonl_export"
    · subst hje
      cases hv : aget m "jsonl_export" with
      | none => exact absurd hmem ((aget_eq_none_iff m _).mp hv)
      | some v => simpa [hv] using aget_ensureMetadataMap_jsonl rigName m
    · exact aget_ensureMetadataMap_other rigName m k hdb hbk hdm hdd hje
  · intro h₀
    rw [aget_ensureMetadataMap_jsonl, h₀]
    rfl
  · intro v hv
    rw [aget_ensureMetadataMap_jsonl, hv]
    rfl

/-- Witness for C2 at the spec's Scenario B: existing metadata
`database=beads.db, custom_field=preserved`, reconcile for rig `hq`. -/
theorem ensureMetadata_preserves_and_upserts_witness :
    aget (ensureMetadataMap "hq"
        [("database", JsonValue.jstr "beads.db"), ("custom_field", JsonValue.jstr "preserved")])
      "custom_field" = some (JsonValue.jstr "preserved") ∧
    aget (ensureMetadataMap "hq"
        [("database", JsonValue.jstr "beads.db"), ("custom_field", JsonValue.jstr "preserved")])
      "backend" = some (JsonValue.jstr "dolt") ∧
    aget (ensureMetadataMap "hq"
        [("database", JsonValue.jstr "beads.db"), ("custom_field", JsonValue.jstr "preserved")])
      "jsonl_export" = some (JsonValue.jstr "issues.jsonl") := by
  have h := ensureMetadata_preserves_and_upserts "hq"
    [("database", JsonValue.jstr "beads.db"), ("custom_field", JsonValue.jstr "preserved")]
  exact ⟨h.1 "custom_field" (by decide) (by decide) (by decide) (by decide) (by decide),
    h.2.1, h.2.2.2.2.2.1 (by decide)⟩

theorem aget_ensureMetadataMap_idem (rigName : String) (x : Meta) (k : String) :
    aget (ensureMetadataMap rigName (canonicalize (ensureMetadataMap rigName x))) k =
      aget (ensureMetadataMap rigName x) k := by
  by_cases hdb : k = "database"
  · subst hdb
    rw [aget_ensureMetadataMap_database, aget_ensureMetadataMap_database]
  by_cases hbk : k = "backend"
  · subst hbk
    rw [aget_ensureMetadataMap_backend, aget_ensureMetadataMap_backend]
  by_cases hdm : k = "dolt_mode"
  · subst hdm
    rw [aget_ensureMetadataMap_doltMode, aget_ensureMetadataMap_doltMode]
  by_cases hdd : k = "dolt_database"
  · subst hdd
    rw [aget_ensureMetadataMap_doltDatabase, aget_ensureMetadataMap_doltDatabase]
  by_cases hje : k = "jsonl_export"
  · subst hje
    rw [aget_ensureMetadataMap_jsonl, aget_ensureMetadataMap_jsonl,
      aget_canonicalize, aget_ensureMetadataMap_jsonl]
    cases aget x "jsonl_export" <;> rfl
  · rw [aget_ensureMetadataMap_other _ _ k hdb hbk hdm hdd hje, aget_canonicalize,
      aget_ensureMetadataMap_other _ _ k hdb hbk hdm hdd hje]

/-- C6: the metadata reconciler is idempotent.  Starting from any file state
(missing file, unparseable text, or a parsed record), the file a second
`EnsureMetadata` writes is byte-equal to the file the first one wrote
(`canonicalize` is the sorted-key serialization of the record). -/
theorem ensureMetadataFile_idempotent (rigName : String) (fs : Option (Option Meta)) :
    ensureMetadataFile rigName (ensureMetadataFile rigName (existingMetaOf fs)) =
      ensureMetadataFile rigName (existingMetaOf fs) := by
  unfold ensureMetadataFile
  exact canonicalize_ext _ _ (aget_ensureMetadataMap_idem rigName (existingMetaOf fs))

/-- C9: when the existing `metadata.json` text is not valid JSON,
`EnsureMetadata` still succeeds (the unmarshal error is discarded and the
map stays empty), and the record it writes holds exactly the five keys
`database`, `backend`, `dolt_mode`, `dolt_database`, `jsonl_export` with
their default values — nothing of the corrupt content is preserved. -/
theorem ensureMetadata_discards_invalid_json (rigName : String) :
    ensureMetadataRecord rigName (some none) =
      [("database", JsonValue.jstr "dolt"), ("backend", JsonValue.jstr "dolt"),
       ("dolt_mode", JsonValue.jstr "server"), ("dolt_database", JsonValue.jstr rigName),
       ("jsonl_export", JsonValue.jstr "issues.jsonl")] := by
  rfl

/-- One `dolt sql -q` subprocess invocation against a rig database
(`doltSQL` in doltserver.go prepends `USE <rigDB>;` to the query). -/
structure SQLCall where
  rigDB : String
  query : String
deriving DecidableEq, Repr

/-- A character allowed by `validBranchNameRe`, the regular expression
of dots, underscores, slashes, hyphens and ASCII alphanumerics, anchored at both ends (doltserver.go). -/
def isValidBranchChar (c : Char) : Bool :=
  (Char.ofNat 97 ≤ c && c ≤ Char.ofNat 122) ||
  (Char.ofNat 65 ≤ c && c ≤ Char.ofNat 90) ||
  (Char.ofNat 48 ≤ c && c ≤ Char.ofNat 57) ||
  c == Char.ofNat 46 || c == Char.ofNat 95 || c == Char.ofNat 47 || c == Char.ofNat 45

/-- `validBranchNameRe.MatchString`: the anchored one-or-more repetition of
the class above matches exactly the non-empty strings all of whose
characters are allowed. -/
def validBranchNameMatches (s : String) : Bool :=
  !s.data.isEmpty && s.data.all isValidBranchChar

/-- `doltserver.validateBranchName`: error on the empty string or on any
character outside the branch-name alphabet. -/
def validateBranchName (branchName : String) : Except String Unit :=
  if branchName = "" then Except.error "branch name must not be empty"
  else if !validBranchNameMatches branchName then
    Except.error ("branch name " ++ branchName ++ " contains invalid characters")
  else Except.ok ()

/-- `doltserver.doltSQL`, modelled as the issued subprocess call plus its
result; `sqlOk` abstracts whether the external `dolt sql` process succeeds. -/
def doltSQL (sqlOk : SQLCall → Bool) (rigDB query : String) :
    Except String Unit × List SQLCall :=
  let c : SQLCall := ⟨rigDB, query⟩
  (if sqlOk c then Except.ok () else Except.error "dolt sql failed", [c])

/-- `doltserver.CreatePolecatBranch`: validate the branch name, then call
`CALL DOLT_BRANCH(\x27<name>\x27)` through the server.  The second component
is the trace of SQL subprocess invocations performed. -/
def CreatePolecatBranch (sqlOk : SQLCall → Bool) (rigDB branchName : String) :
    Except String Unit × List SQLCall :=
  match validateBranchName branchName with
  | Except.error e => (Except.error ("creating Dolt branch in " ++ rigDB ++ ": " ++ e), [])
  | Except.ok _ =>
    let r := doltSQL sqlOk rigDB ("CALL DOLT_BRANCH(\x27" ++ branchName ++ "\x27)")
    match r.1 with
    | Except.error e =>
      (Except.error ("creating Dolt branch " ++ branchName ++ " in " ++ rigDB ++ ": " ++ e), r.2)
    | Except.ok _ => (Except.ok (), r.2)

/-- C1: for every SQL backend behaviour, rig database and branch name `B`,
`CreatePolecatBranch` succeeds only if `B` is non-empty and matches
the branch-name alphabet (dots, underscores, slashes, hyphens, alphanumerics); for any `B` that fails the pattern it returns an error
and invokes no SQL subprocess, leaving the database untouched. -/
theorem createPolecatBranch_validates (sqlOk : SQLCall → Bool) (rigDB B : String) :
    ((CreatePolecatBranch sqlOk rigDB B).1.isOk = true → validBranchNameMatches B = true) ∧
    (validBranchNameMatches B = false →
      (CreatePolecatBranch sqlOk rigDB B).1.isOk = false ∧
      (CreatePolecatBranch sqlOk rigDB B).2 = []) := by
  constructor
  · intro hok
    by_contra hB
    have hB₂ : validBranchNameMatches B = false := by
      cases h : validBranchNameMatches B
      · rfl
      · exact absurd h hB
    have hne : ¬(B = "") → validateBranchName B = Except.error
        ("branch name " ++ B ++ " contains invalid characters") := by
      intro hemp
      rw [validateBranchName, if_neg hemp, hB₂]
      rfl
    by_cases hemp : B = ""
    · rw [CreatePolecatBranch] at hok
      rw [validateBranchName, if_pos hemp] at hok
      simp [Except.isOk, Except.toBool] at hok
    · rw [CreatePolecatBranch, hne hemp] at hok
      simp [Except.isOk, Except.toBool] at hok
  · intro hB
    have hval : ∃ e, validateBranchName B = Except.error e := by
      by_cases hemp : B = ""
      · exact ⟨_, by rw [validateBranchName, if_pos hemp]⟩
      · exact ⟨_, by rw [validateBranchName, if_neg hemp, hB]; rfl⟩
    obtain ⟨e, he⟩ := hval
    rw [CreatePolecatBranch, he]
    exact ⟨rfl, rfl⟩

/-- Witness for C1 at the spec's Scenario G: the injection attempt
`polecat-x\x27; DROP TABLE--` is rejected and no SQL subprocess runs,
for any backend behaviour (here: one that would accept every call). -/
theorem createPolecatBranch_validates_witness :
    (CreatePolecatBranch (fun _ => true) "hq" "polecat-x\x27; DROP TABLE--").1.isOk = false ∧
    (CreatePolecatBranch (fun _ => true) "hq" "polecat-x\x27; DROP TABLE--").2 = [] := by
  exact (createPolecatBranch_validates (fun _ => true) "hq"
    "polecat-x\x27; DROP TABLE--").2 (by decide)

/-- `filepath.Join` on two components, as used with non-empty literals here. -/
def fjoin (a b : String) : String := a ++ "/" ++ b

/-- `strings.HasPrefix(name, ".")`: the name's first character is a dot. -/
def startsWithDot (s : String) : Bool :=
  match s.data with
  | [] => false
  | c :: _ => c == Char.ofNat 46

/-- A proposed database migration (doltserver.go `Migration`). -/
structure Migration where
  RigName : String
  SourcePath : String
  TargetPath : String
deriving DecidableEq, Repr

/-- `doltserver.FindMigratableDatabases`.  The filesystem is abstracted by
`ex` (whether a path exists), the town-root directory listing by `entries`
(entry name, is-directory), and `beads.ResolveBeadsDir` — whose source is
outside the embedded files and whose behaviour the claim does not depend
on — by an arbitrary `resolve` function. -/
def FindMigratableDatabases (ex : String → Bool) (resolve : String → String)
    (townRoot : String) (entries : List (String × Bool)) : List Migration :=
  let dataDir := fjoin townRoot ".dolt-data"
  let townSource := fjoin (fjoin (resolve townRoot) "dolt") "beads"
  let townPart : List Migration :=
    if ex (fjoin townSource ".dolt") then
      if ex (fjoin (fjoin dataDir "hq") ".dolt") then []
      else [⟨"hq", townSource, fjoin dataDir "hq"⟩]
    else []
  let rigPart : List Migration := entries.filterMap (fun e =>
    if !e.2 || startsWithDot e.1 then none
    else
      let rigSource := fjoin (fjoin (resolve (fjoin townRoot e.1)) "dolt") "beads"
      if ex (fjoin rigSource ".dolt") then
        if ex (fjoin (fjoin dataDir e.1) ".dolt") then none
        else some ⟨e.1, rigSource, fjoin dataDir e.1⟩
      else none)
  townPart ++ rigPart

/-- C5: every migration proposed by `FindMigratableDatabases` has a target
directory that does not already contain the backend's `.dolt` metadata
directory, for every filesystem, store-directory resolver and town listing. -/
theorem findMigratable_skips_existing_targets (ex : String → Bool)
    (resolve : String → String) (townRoot : String) (entries : List (String × Bool))
    (mig : Migration)
    (hmem : mig ∈ FindMigratableDatabases ex resolve townRoot entries) :
    ex (fjoin mig.TargetPath ".dolt") = false := by
  simp only [FindMigratableDatabases, List.mem_append] at hmem
  rcases hmem with h | h
  · by_cases h₁ : ex (fjoin (fjoin (fjoin (resolve townRoot) "dolt") "beads") ".dolt") = true
    · rw [if_pos h₁] at h
      by_cases h₂ : ex (fjoin (fjoin (fjoin townRoot ".dolt-data") "hq") ".dolt") = true
      · rw [if_pos h₂] at h
        exact absurd h (List.not_mem_nil _)
      · rw [if_neg h₂] at h
        rcases List.mem_singleton.mp h with rfl
        simpa using h₂
    · rw [if_neg h₁] at h
      exact absurd h (List.not_mem_nil _)
  · rcases List.mem_filterMap.mp h with ⟨e, _, hf⟩
    by_cases h₀ : (!e.2 || startsWithDot e.1) = true
    · rw [if_pos h₀] at hf
      exact absurd hf (by simp)
    · rw [if_neg h₀] at hf
      by_cases h₁ : ex (fjoin (fjoin (fjoin (resolve (fjoin townRoot e.1)) "dolt") "beads") ".dolt") = true
      · rw [if_pos h₁] at hf
        by_cases h₂ : ex (fjoin (fjoin (fjoin townRoot ".dolt-data") e.1) ".dolt") = true
        · rw [if_pos h₂] at hf
          exact absurd hf (by simp)
        · rw [if_neg h₂] at hf
          rcases Option.some_injective _ hf with rfl
          simpa using h₂
      · rw [if_neg h₁] at hf
        exact absurd hf (by simp)

/-- Witness for C5 at the spec's Scenario A: a town `T` with one rig `nexus`
whose redirected store holds a legacy database; the single proposed
migration's target `T/.dolt-data/nexus` has no `.dolt` yet. -/
theorem findMigratable_skips_existing_targets_witness :
    (⟨"nexus", "T/nexus/mayor/rig/.beads/dolt/beads", "T/.dolt-data/nexus"⟩ : Migration) ∈
      FindMigratableDatabases
        (fun p => p == "T/nexus/mayor/rig/.beads/dolt/beads/.dolt")
        (fun p => if p == "T/nexus" then "T/nexus/mayor/rig/.beads" else fjoin p ".beads")
        "T" [("nexus", true)] ∧
    (fun p => p == "T/nexus/mayor/rig/.beads/dolt/beads/.dolt")
      (fjoin "T/.dolt-data/nexus" ".dolt") = false := by
  refine ⟨by decide, ?_⟩
  exact findMigratable_skips_existing_targets
    (fun p => p == "T/nexus/mayor/rig/.beads/dolt/beads/.dolt")
    (fun p => if p == "T/nexus" then "T/nexus/mayor/rig/.beads" else fjoin p ".beads")
    "T" [("nexus", true)]
    ⟨"nexus", "T/nexus/mayor/rig/.beads/dolt/beads", "T/.dolt-data/nexus"⟩ (by decide)

/-- `doltserver.DefaultMaxConnections` (Config default installed by
`DefaultConfig`). -/
def DefaultMaxConnections : Int := 50

/-- Result triple of `doltserver.HasConnectionCapacity`. -/
structure CapacityResult where
  hasCapacity : Bool
  active : Int
  err : Option String
deriving DecidableEq, Repr

/-- `doltserver.HasConnectionCapacity`.  `cfgMaxConnections` is the
configured `Config.MaxConnections`; `activeResult` abstracts
`GetActiveConnectionCount`, whose server query can fail. -/
def HasConnectionCapacity (cfgMaxConnections : Int)
    (activeResult : Except String Int) : CapacityResult :=
  let maxConn := if cfgMaxConnections ≤ 0 then 1000 else cfgMaxConnections
  match activeResult with
  | Except.error e => ⟨true, 0, some e⟩
  | Except.ok active =>
    let threshold := maxConn * 80 / 100
    let threshold := if threshold < 1 then 1 else threshold
    ⟨decide (active < threshold), active, none⟩

/-- C8: `HasConnectionCapacity` reports capacity against the threshold
`max 1 (floor (80 percent of max_connections))` — true exactly when the
measured count is strictly below it — and returns optimistic
`hasCapacity = true` together with the error whenever the count cannot be
measured, so a spawn is never blocked on a missing signal. -/
theorem hasConnectionCapacity_spec (cfg : Int) (activeResult : Except String Int) :
    (∀ n, activeResult = Except.ok n →
      (HasConnectionCapacity cfg activeResult).hasCapacity =
        decide (n < max 1 ((if cfg ≤ 0 then 1000 else cfg) * 80 / 100))) ∧
    (∀ e, activeResult = Except.error e →
      (HasConnectionCapacity cfg activeResult).hasCapacity = true ∧
      (HasConnectionCapacity cfg activeResult).err = some e) := by
  constructor
  · intro n hn
    subst hn
    show decide (n < if (if cfg ≤ 0 then 1000 else cfg) * 80 / 100 < 1 then 1
      else (if cfg ≤ 0 then 1000 else cfg) * 80 / 100) = _
    congr 1
    by_cases h : (if cfg ≤ 0 then 1000 else cfg) * 80 / 100 < 1
    · rw [if_pos h, max_eq_left (le_of_lt h)]
    · rw [if_neg h, max_eq_right (le_of_not_lt h)]
  · intro e he
    subst he
    exact ⟨rfl, rfl⟩

/-- Witness for C8: with the default `max_connections = 50` the threshold is
`max 1 40`; a measured count of 39 has capacity, and a failed measurement
returns optimistic capacity with the error. -/
theorem hasConnectionCapacity_spec_witness :
    (HasConnectionCapacity DefaultMaxConnections (Except.ok 39)).hasCapacity =
      decide ((39 : Int) < max 1 ((if DefaultMaxConnections ≤ 0 then 1000
        else DefaultMaxConnections) * 80 / 100)) ∧
    ((HasConnectionCapacity DefaultMaxConnections (Except.error "no server")).hasCapacity = true ∧
      (HasConnectionCapacity DefaultMaxConnections (Except.error "no server")).err =
        some "no server") :=
  ⟨(hasConnectionCapacity_spec DefaultMaxConnections (Except.ok 39)).1 39 rfl,
    (hasConnectionCapacity_spec DefaultMaxConnections (Except.error "no server")).2
      "no server" rfl⟩

/-- The dot character, as used by `strings.Split(version, ".")`. -/
def dotChar : Char := Char.ofNat 46

/-- `strings.Fields`: split a string around runs of whitespace, dropping
empty chunks. -/
def goFields (s : String) : List String :=
  ((s.data.splitOnP (fun c => c.isWhitespace)).filter
    (fun l => !l.isEmpty)).map (fun l => String.mk l)

/-- The `fmt.Sscanf(s, "%d", &n)` convention used by `bdSupportsDolt`:
skip leading whitespace, read an optional sign and a run of digits; when no
digit follows, the scan fails and the target variable keeps its zero value. -/
def goScanInt (s : String) : Int :=
  let l := s.data.dropWhile (fun c => c.isWhitespace)
  match l with
  | [] => 0
  | c :: rest =>
    if c == Char.ofNat 45 then
      match rest.takeWhile (fun ch => ch.isDigit) with
      | [] => 0
      | ds => -(Int.ofNat (ds.foldl (fun acc ch => acc * 10 + (ch.toNat - 48)) 0))
    else if c == Char.ofNat 43 then
      match rest.takeWhile (fun ch => ch.isDigit) with
      | [] => 0
      | ds => Int.ofNat (ds.foldl (fun acc ch => acc * 10 + (ch.toNat - 48)) 0)
    else
      match l.takeWhile (fun ch => ch.isDigit) with
      | [] => 0
      | ds => Int.ofNat (ds.foldl (fun acc ch => acc * 10 + (ch.toNat - 48)) 0)

/-- `doctor.bdSupportsDolt` (migration_check.go): take the third
whitespace-separated field, split it on dots, leniently scan the first two
components, and accept when `major > 0` or `major = 0 ∧ minor ≥ 40`. -/
def bdSupportsDolt (versionStr : String) : Bool :=
  match goFields versionStr with
  | _ :: _ :: version :: _ =>
    match version.data.splitOn dotChar with
    | v₀ :: v₁ :: _ =>
      let major := goScanInt (String.mk v₀)
      let minor := goScanInt (String.mk v₁)
      decide (0 < major) || (decide (major = 0) && decide ((40 : Int) ≤ minor))
    | _ => false
  | _ => false

/-- The version gate stated independently: some third field exists whose
first two dot-components scan to a pair lexicographically at least (0, 40). -/
def bdSupportsDoltSpec (s : String) : Prop :=
  ∃ f₁ f₂ v rest, goFields s = f₁ :: f₂ :: v :: rest ∧
    ∃ c₁ c₂ cs, v.data.splitOn dotChar = c₁ :: c₂ :: cs ∧
      Prod.Lex (· < ·) (· ≤ ·) ((0 : Int), 40)
        (goScanInt (String.mk c₁), goScanInt (String.mk c₂))

/-- C7 counterexample: on `bd version 1.0.0 (c)` — a string of the claimed
form `bd version MAJOR.MINOR.PATCH ...` with `(major, minor) = (1, 0)` —
the componentwise comparison `(1, 0) ≥ (0, 40)` demanded by the claim is
false, yet `bdSupportsDolt` returns true (the code gates lexicographically:
`major > 0` alone suffices). -/
theorem bdSupportsDolt_componentwise_counterexample :
    bdSupportsDolt "bd version 1.0.0 (c)" = true ∧
    ¬((1 : Int) ≥ 0 ∧ (0 : Int) ≥ 40) := by
  exact ⟨by decide, by decide⟩

/-- C7 amended: `bdSupportsDolt` returns true exactly when the string has at
least three whitespace-separated fields and the third field's first two
dot-components scan (leniently, zero on failure) to `(major, minor)`
lexicographically at least `(0, 40)`; in particular true on
`bd version 0.49.3 (c)` and `bd version 1.0.0 (c)`, false on
`bd version 0.39.9 (c)` and on `invalid`. -/
theorem bdSupportsDolt_spec :
    (∀ s, bdSupportsDolt s = true ↔ bdSupportsDoltSpec s) ∧
    bdSupportsDolt "bd version 0.49.3 (c)" = true ∧
    bdSupportsDolt "bd version 0.39.9 (c)" = false ∧
    bdSupportsDolt "bd version 1.0.0 (c)" = true ∧
    bdSupportsDolt "invalid" = false := by
  refine ⟨?_, by decide, by decide, by decide, by decide⟩
  intro s
  constructor
  · intro h
    unfold bdSupportsDolt at h
    split at h
    next f₁ f₂ version rest hf =>
      split at h
      next v₀ v₁ cs hc =>
        refine ⟨f₁, f₂, version, rest, hf, v₀, v₁, cs, hc, ?_⟩
        rw [Prod.lex_def]
        simp only [Bool.or_eq_true, Bool.and_eq_true, decide_eq_true_eq] at h
        rcases h with h | ⟨h₁, h₂⟩
        · exact Or.inl h
        · exact Or.inr ⟨h₁.symm, h₂⟩
      next hc => exact absurd h (by simp)
    next hf => exact absurd h (by simp)
  · rintro ⟨f₁, f₂, v, rest, hf, c₁, c₂, cs, hc, hlex⟩
    rw [Prod.lex_def] at hlex
    rcases hlex with h | ⟨h₁, h₂⟩
    · simp [bdSupportsDolt, hf, hc, h]
    · have h₁b : goScanInt (String.mk c₁) = 0 := by simpa using h₁.symm
      have h₂b : (40 : Int) ≤ goScanInt (String.mk c₂) := by simpa using h₂
      simp [bdSupportsDolt, hf, hc, h₁b, h₂b]

/-- `b` starts with `a` (character-list form of `strings.HasPrefix`). -/
def leadsWith : List Char → List Char → Bool
  | [], _ => true
  | _ :: _, [] => false
  | a :: as, b :: bs => a == b && leadsWith as bs

/-- `strings.Contains` on character lists: some suffix starts with needle. -/
def containsSeg (needle : List Char) : List Char → Bool
  | [] => leadsWith needle []
  | c :: rest => leadsWith needle (c :: rest) || containsSeg needle rest

/-- `strings.ToLower` (ASCII as used by the step names). -/
def lowerStr (s : String) : String := String.mk (s.data.map Char.toLower)

/-- `cmd.stepsOrder`: the canonical molecule step names in execution order. -/
def stepsOrder : List String :=
  ["Load context", "Set up working branch", "Verify tests pass", "Implement",
   "Self-review", "Run tests", "Clean up", "Prepare work", "Submit work"]

/-- `cmd.matchStep`: first status key containing the canonical step name
case-insensitively decides closure; absent means not closed. -/
def matchStep (stepName : String) (statuses : List (String × Bool)) : Bool :=
  match statuses.find? (fun p => containsSeg (lowerStr stepName).data (lowerStr p.1).data) with
  | some p => p.2
  | none => false

/-- `cmd.countClosedSteps`: how many canonical steps match a closed status. -/
def countClosedSteps (statuses : List (String × Bool)) : Nat :=
  (stepsOrder.filter (fun s => matchStep s statuses)).length

/-- Go's `int(x)` truncation toward zero on a rational. -/
def truncQ (q : ℚ) : Int := if 0 ≤ q then ⌊q⌋ else ⌈q⌉

/-- `cmd.roundTo1`: round a session age to one decimal place. -/
def roundTo1 (f : ℚ) : ℚ := ((truncQ (f * 10) : ℚ)) / 10

/-- `cmd.StepDriftResult`: per-polecat drift report. -/
structure StepDriftResult where
  rig : String
  name : String
  bead : String
  title : String
  state : String
  ageMin : ℚ
  closed : Nat
  total : Nat
  drifting : Bool
  nudged : Bool
  branch : String
  errMsg : String
deriving DecidableEq, Repr

/-- The per-polecat observations `checkStepDrift` gathers through
subprocesses before building a result: `gt polecat list` fields, the
resolved Dolt branch, the wisp id, the step statuses read on that branch,
the bead title, and the tmux session age in minutes (a float, modelled
as a rational). -/
structure PolecatObs where
  rig : String
  name : String
  state : String
  bead : String
  branch : String
  wispID : String
  statuses : List (String × Bool)
  title : String
  ageMin : ℚ
deriving DecidableEq, Repr

/-- The result `cmd.checkStepDrift` builds for one polecat (the loop body of
patrol_step_drift.go, lines 165-193). -/
def mkStepDriftResult (thresholdMinutes : Int) (p : PolecatObs) : StepDriftResult :=
  let closed := countClosedSteps p.statuses
  { rig := p.rig, name := p.name, bead := p.bead, title := p.title, state := p.state,
    ageMin := roundTo1 p.ageMin, closed := closed, total := stepsOrder.length,
    drifting := decide (p.ageMin ≥ (thresholdMinutes : ℚ) ∧ closed = 0),
    nudged := false, branch := p.branch,
    errMsg :=
      if p.branch = "" ∧ p.bead ≠ "" then "could not find Dolt branch"
      else if p.wispID = "" ∧ p.bead ≠ "" then "could not find attached molecule"
      else "" }

/-- C4: the step-drift detector sets `Drifting` iff the session age reaches
the threshold (in minutes) and the closed canonical-step count is zero; a
polecat below the threshold, or with a non-zero closed count, is never
flagged. -/
theorem stepDrift_flag_iff (thresholdMinutes : Int) (p : PolecatObs) :
    ((mkStepDriftResult thresholdMinutes p).drifting = true ↔
      (thresholdMinutes : ℚ) ≤ p.ageMin ∧ countClosedSteps p.statuses = 0) ∧
    (p.ageMin < (thresholdMinutes : ℚ) →
      (mkStepDriftResult thresholdMinutes p).drifting = false) ∧
    (countClosedSteps p.statuses ≠ 0 →
      (mkStepDriftResult thresholdMinutes p).drifting = false) := by
  have hd : (mkStepDriftResult thresholdMinutes p).drifting =
      decide ((thresholdMinutes : ℚ) ≤ p.ageMin ∧ countClosedSteps p.statuses = 0) := rfl
  refine ⟨?_, ?_, ?_⟩
  · rw [hd, decide_eq_true_iff]
  · intro h
    rw [hd, decide_eq_false_iff_not]
    rintro ⟨h₁, -⟩
    exact absurd h₁ (not_le.mpr h)
  · intro h
    rw [hd, decide_eq_false_iff_not]
    rintro ⟨-, h₂⟩
    exact h h₂

/-- Witness for C4: with the default 5-minute threshold, a 10-minute session
with nothing closed drifts; a 3-minute session does not; a 10-minute session
with `Load context` closed does not. -/
theorem stepDrift_flag_iff_witness :
    (mkStepDriftResult 5
      ⟨"gastown", "alpha", "working", "gt-1", "polecat-alpha-1", "wisp-1",
        [("Load context", false)], "t", 10⟩).drifting = true ∧
    (mkStepDriftResult 5
      ⟨"gastown", "beta", "working", "gt-2", "polecat-beta-1", "wisp-2",
        [("Load context", false)], "t", 3⟩).drifting = false ∧
    (mkStepDriftResult 5
      ⟨"gastown", "gamma", "working", "gt-3", "polecat-gamma-1", "wisp-3",
        [("Load context", true)], "t", 10⟩).drifting = false := by
  refine ⟨(stepDrift_flag_iff 5 _).1.mpr ⟨by norm_num, by decide⟩,
    (stepDrift_flag_iff 5 _).2.1 (by norm_num),
    (stepDrift_flag_iff 5 _).2.2 (by decide)⟩

/-- The authoritative `agent_state` database column of a polecat's agent
issue. -/
inductive AgentState where
  | spawning
  | working
  | idle
  | done
  | crashed
  | other : String → AgentState
deriving DecidableEq, Repr

/-- What one health-check pass emits: its log lines and whether it triggers
a restart. -/
structure HealthOutcome where
  logs : List String
  restart : Bool
deriving DecidableEq, Repr

/-- Modelled from the spec: `daemon.checkPolecatHealth` is absent from the
provided sources (only `internal/daemon/polecat_health_test.go` is present);
this follows spec section 4.4 and the log strings the tests assert.  Per
heartbeat: read `agent_state` from the database column (authoritative, never
the description text); when `spawning`, skip without restart if `updated_at`
is at most 5 minutes before now, otherwise log that the spawning guard
expired and fall through to the crashed-check; when `working` (or past the
expired guard), probe the multiplexer session and, if it is missing, emit
`CRASH DETECTED` and trigger a restart; all other states take no action.
Times are unix seconds. -/
def checkPolecatHealth (dbState : AgentState) (updatedAt now : Int)
    (sessionExists : Bool) : HealthOutcome :=
  match dbState with
  | AgentState.spawning =>
    if now - updatedAt ≤ 5 * 60 then
      ⟨["Skipping restart: agent_state=spawning (bead updated recently)"], false⟩
    else if sessionExists then ⟨["Spawning guard expired"], false⟩
    else ⟨["Spawning guard expired", "CRASH DETECTED"], true⟩
  | AgentState.working =>
    if sessionExists then ⟨[], false⟩ else ⟨["CRASH DETECTED"], true⟩
  | _ => ⟨[], false⟩

/-- C3: for a polecat whose database column says `spawning`, the health
check never emits `CRASH DETECTED` nor restarts while `updated_at` is at
most 5 minutes old (it logs the spawning skip instead), regardless of the
session; once `updated_at` is more than 5 minutes old it logs that the
spawning guard expired and, when the session is absent, emits
`CRASH DETECTED` (triggering the restart). -/
theorem checkPolecatHealth_spawning_guard (updatedAt now : Int) (sess : Bool) :
    (now - updatedAt ≤ 300 →
      "CRASH DETECTED" ∉ (checkPolecatHealth AgentState.spawning updatedAt now sess).logs ∧
      (checkPolecatHealth AgentState.spawning updatedAt now sess).restart = false ∧
      "Skipping restart: agent_state=spawning (bead updated recently)" ∈
        (checkPolecatHealth AgentState.spawning updatedAt now sess).logs) ∧
    (300 < now - updatedAt →
      "Spawning guard expired" ∈
        (checkPolecatHealth AgentState.spawning updatedAt now sess).logs ∧
      (sess = false →
        "CRASH DETECTED" ∈
          (checkPolecatHealth AgentState.spawning updatedAt now sess).logs ∧
        (checkPolecatHealth AgentState.spawning updatedAt now sess).restart = true)) := by
  constructor
  · intro h
    have h300 : now - updatedAt ≤ 5 * 60 := by omega
    rw [checkPolecatHealth]
    rw [if_pos h300]
    refine ⟨?_, rfl, ?_⟩
    · simp
    · simp
  · intro h
    have h300 : ¬(now - updatedAt ≤ 5 * 60) := by omega
    rw [checkPolecatHealth, if_neg h300]
    cases sess with
    | true =>
      refine ⟨by simp, ?_⟩
      intro hfalse
      exact absurd hfalse (by simp)
    | false => exact ⟨by simp, fun _ => ⟨by simp, rfl⟩⟩

/-- Witness for C3 at the spec's Scenarios C and D: a spawning polecat
updated 1 minute ago is skipped even with the session absent; one updated
10 minutes ago expires the guard and crash-detects. -/
theorem checkPolecatHealth_spawning_guard_witness :
    ("CRASH DETECTED" ∉ (checkPolecatHealth AgentState.spawning 540 600 false).logs ∧
      (checkPolecatHealth AgentState.spawning 540 600 false).restart = false ∧
      "Skipping restart: agent_state=spawning (bead updated recently)" ∈
        (checkPolecatHealth AgentState.spawning 540 600 false).logs) ∧
    ("Spawning guard expired" ∈ (checkPolecatHealth AgentState.spawning 0 600 false).logs ∧
      "CRASH DETECTED" ∈ (checkPolecatHealth AgentState.spawning 0 600 false).logs ∧
      (checkPolecatHealth AgentState.spawning 0 600 false).restart = true) := by
  refine ⟨(checkPolecatHealth_spawning_guard 540 600 false).1 (by decide), ?_⟩
  have h := (checkPolecatHealth_spawning_guard 0 600 false).2 (by decide)
  exact ⟨h.1, (h.2 rfl).1, (h.2 rfl).2⟩

/-- `config.RuntimeConfig` (the fields cost_tier.go uses). -/
structure RuntimeConfig where
  command : String
  args : List String
deriving DecidableEq, Repr

/-- `config.TownSettings` (the fields cost_tier.go reads and writes):
`role_agents`, the custom `agents` map, and the informational `cost_tier`. -/
structure TownSettings where
  roleAgents : List (String × String)
  agents : List (String × RuntimeConfig)
  costTier : String
deriving DecidableEq, Repr

/-- `config.TierStandard`. -/
def TierStandard : String := "standard"

/-- `config.TierEconomy`. -/
def TierEconomy : String := "economy"

/-- `config.TierBudget`. -/
def TierBudget : String := "budget"

/-- `config.ValidCostTiers`. -/
def ValidCostTiers : List String := [TierStandard, TierEconomy, TierBudget]

/-- `config.IsValidTier`. -/
def IsValidTier (tier : String) : Bool :=
  tier == TierStandard || tier == TierEconomy || tier == TierBudget

/-- `config.claudeSonnetPreset`. -/
def claudeSonnetPreset : RuntimeConfig :=
  ⟨"claude", ["--dangerously-skip-permissions", "--model", "sonnet"]⟩

/-- `config.claudeHaikuPreset`. -/
def claudeHaikuPreset : RuntimeConfig :=
  ⟨"claude", ["--dangerously-skip-permissions", "--model", "haiku"]⟩

/-- `config.CostTierRoleAgents`: `none` models Go's nil map for an invalid
tier (standard yields an empty, non-nil map). -/
def CostTierRoleAgents (tier : String) : Option (List (String × String)) :=
  if tier == TierStandard then some []
  else if tier == TierEconomy then
    some [("mayor", "claude-sonnet"), ("deacon", "claude-haiku"),
      ("witness", "claude-sonnet"), ("refinery", "claude-sonnet")]
  else if tier == TierBudget then
    some [("mayor", "claude-sonnet"), ("deacon", "claude-haiku"),
      ("witness", "claude-haiku"), ("refinery", "claude-haiku"),
      ("polecat", "claude-sonnet"), ("crew", "claude-sonnet")]
  else none

/-- `config.CostTierAgents`. -/
def CostTierAgents (tier : String) : Option (List (String × RuntimeConfig)) :=
  if tier == TierStandard then some []
  else if tier == TierEconomy || tier == TierBudget then
    some [("claude-sonnet", claudeSonnetPreset), ("claude-haiku", claudeHaikuPreset)]
  else none

/-- `config.ApplyCostTier`: validate the tier first (the Go code mutates
`settings` only after validation, so the error case leaves it untouched);
replace `role_agents` wholesale, delete or upsert the tier agent presets,
and record the tier. -/
def ApplyCostTier (settings : TownSettings) (tier : String) : Except String TownSettings :=
  match CostTierRoleAgents tier with
  | none => Except.error ("invalid cost tier: \"" ++ tier ++ "\" (valid: " ++
      String.intercalate ", " ValidCostTiers ++ ")")
  | some roleAgents =>
    let agents := (CostTierAgents tier).getD []
    let s₁ : TownSettings := { settings with roleAgents := roleAgents }
    let s₂ : TownSettings :=
      if tier == TierStandard then
        { s₁ with agents := adel (adel s₁.agents "claude-sonnet") "claude-haiku" }
      else
        { s₁ with agents := agents.foldl (fun acc p => aset acc p.1 p.2) s₁.agents }
    Except.ok { s₂ with costTier := tier }

/-- `config.roleAgentsMatch`: nil and empty are equal; otherwise lengths
and per-key values (Go's zero value for a missing key) must agree. -/
def roleAgentsMatch (a b : List (String × String)) : Bool :=
  if a.length == 0 && b.length == 0 then true
  else if a.length != b.length then false
  else a.all (fun p => (aget b p.1).getD "" == p.2)

/-- `config.GetCurrentTier`: trust the informational field when it names a
valid tier whose role map still matches, otherwise infer by comparing the
role map against each tier; empty string for custom configurations. -/
def GetCurrentTier (settings : TownSettings) : String :=
  if settings.costTier != "" && IsValidTier settings.costTier &&
      roleAgentsMatch settings.roleAgents
        ((CostTierRoleAgents settings.costTier).getD []) then
    settings.costTier
  else
    match ValidCostTiers.find?
        (fun t => roleAgentsMatch settings.roleAgents ((CostTierRoleAgents t).getD [])) with
    | some t => t
    | none => ""

/-- C10: applying a valid cost tier then inferring it round-trips — for
every settings value and tier in standard, economy, budget, `ApplyCostTier`
succeeds and `GetCurrentTier` on the result returns exactly that tier
(never the empty custom-configuration answer) — while any other tier name
yields an error (the Go code rejects it before touching the settings). -/
theorem applyCostTier_roundTrip (s : TownSettings) (t : String) :
    (IsValidTier t = true →
      ∃ s₂, ApplyCostTier s t = Except.ok s₂ ∧ GetCurrentTier s₂ = t ∧ t ≠ "") ∧
    (IsValidTier t = false →
      ApplyCostTier s t = Except.error ("invalid cost tier: \"" ++ t ++ "\" (valid: " ++
        String.intercalate ", " ValidCostTiers ++ ")")) := by
  constructor
  · intro ht
    have ht₂ : t = TierStandard ∨ t = TierEconomy ∨ t = TierBudget := by
      simp only [IsValidTier, Bool.or_eq_true, beq_iff_eq] at ht
      tauto
    rcases ht₂ with rfl | rfl | rfl
    · exact ⟨_, rfl, rfl, by decide⟩
    · exact ⟨_, rfl, rfl, by decide⟩
    · exact ⟨_, rfl, rfl, by decide⟩
  · intro ht
    have ht₂ : (t == TierStandard) = false ∧ (t == TierEconomy) = false ∧
        (t == TierBudget) = false := by
      rcases Bool.or_eq_false_iff.mp ht with ⟨h₁₂, h₃⟩
      rcases Bool.or_eq_false_iff.mp h₁₂ with ⟨h₁, h₂⟩
      exact ⟨h₁, h₂, h₃⟩
    rw [ApplyCostTier]
    rw [CostTierRoleAgents]
    rw [ht₂.1, ht₂.2.1, ht₂.2.2]
    rfl

/-- Witness for C10: starting from empty settings, applying `economy`
round-trips, and the unknown tier `premium` is rejected. -/
theorem applyCostTier_roundTrip_witness :
    (∃ s₂, ApplyCostTier ⟨[], [], ""⟩ "economy" = Except.ok s₂ ∧
      GetCurrentTier s₂ = "economy" ∧ "economy" ≠ "") ∧
    ApplyCostTier ⟨[], [], ""⟩ "premium" =
      Except.error "invalid cost tier: \"premium\" (valid: standard, economy, budget)" := by
  refine ⟨(applyCostTier_roundTrip ⟨[], [], ""⟩ "economy").1 (by decide), ?_⟩
  exact (applyCostTier_roundTrip ⟨[], [], ""⟩ "premium").2 (by decide)
